import Mathlib

/-!
Verification of the session-cache and message-gating core of the
OpenAIAssistantBot repository, as a shallow embedding in Lean 4.

The embedding follows `src/thread_manager.py`, `src/bot.py`,
`src/handlers.py` and `src/config.py`:

* `thread_manager.py` keeps a dict `chat_user_threads : (chat_id, user_id)
  -> ThreadInfo` and a binary min-heap `thread_heap` of `ThreadInfo`
  ordered by `last_access` (`ThreadInfo.__lt__` compares `last_access`).
  We model the dict as an association list with unique keys
  (`lookupKey` / `setKey` / `eraseKey` mirror `get` / `[...] =` / `del`)
  and the heap as a list kept sorted ascending by `last_access`
  (`heapq.heappush` becomes sorted insertion, `heapq.heapify` a re-sort,
  `heapq.heappop` takes the head; `heapq` pops entries in nondecreasing
  `last_access` order, which is the only property the code relies on).
  Timestamps (`datetime.now()`) are modelled as integers, so that
  `current_time - last_access <= timedelta(hours=THREAD_LIFETIME_HOURS)`
  becomes `now - last_access ≤ maxIdle`.
* Calls to the OpenAI backend are modelled by explicit parameters: the
  result of `check_thread_exists` is a function `valid : String → Bool`,
  the id returned by `client.beta.threads.create()` is a `fresh : String`
  argument, and backend `delete` calls are recorded in an output list
  (the code attempts them best-effort and catches every exception).
-/

namespace AssistantBot

/-- Model of `thread_manager.ThreadInfo`: a dataclass holding the OpenAI
thread id, the last access timestamp and the key components. -/
structure ThreadInfo where
  thread_id : String
  last_access : Int
  chat_id : Int
  user_id : Int
  deriving DecidableEq, Repr

/-- Model of `ThreadInfo.key`: the pair `(chat_id, user_id)`. -/
def ThreadInfo.key (t : ThreadInfo) : Int × Int := (t.chat_id, t.user_id)

/-- Lookup in an association list, modelling Python's `dict.get`. -/
def dictGet {κ β : Type} [DecidableEq κ] (k : κ) : List (κ × β) → Option β
  | [] => none
  | (k', v) :: rest => if k' = k then some v else dictGet k rest

/-- Model of `del d[key]` (keys are unique in a dict, so removing every
pair with the key is the same operation). -/
def dictErase {κ β : Type} [DecidableEq κ] (k : κ) (m : List (κ × β)) :
    List (κ × β) :=
  m.filter (fun kv => kv.1 ≠ k)

/-- Model of `d[key] = v`: replace the value when the key is present (a
dict update keeps the entry in place), append otherwise. -/
def dictSet {κ β : Type} [DecidableEq κ] (k : κ) (v : β)
    (m : List (κ × β)) : List (κ × β) :=
  if (dictGet k m).isSome then
    m.map (fun kv => if kv.1 = k then (k, v) else kv)
  else
    m ++ [(k, v)]

/-- Association list modelling the Python dict `chat_user_threads`. -/
abbrev ThreadMap := List ((Int × Int) × ThreadInfo)

/-- Model of `chat_user_threads.get(key)`. -/
def lookupKey (k : Int × Int) (m : ThreadMap) : Option ThreadInfo :=
  dictGet k m

/-- Model of `del chat_user_threads[key]`. -/
def eraseKey (k : Int × Int) (m : ThreadMap) : ThreadMap :=
  dictErase k m

/-- Model of `chat_user_threads[key] = ti`. -/
def setKey (k : Int × Int) (ti : ThreadInfo) (m : ThreadMap) : ThreadMap :=
  dictSet k ti m

/-- Sorted insertion into the heap model, mirroring `heapq.heappush`
with `ThreadInfo.__lt__` comparing `last_access`. -/
def heapInsert (ti : ThreadInfo) : List ThreadInfo → List ThreadInfo
  | [] => [ti]
  | x :: xs =>
    if ti.last_access ≤ x.last_access then ti :: x :: xs
    else x :: heapInsert ti xs

/-- Re-sorting the heap model, mirroring `heapq.heapify`. -/
def heapSort (l : List ThreadInfo) : List ThreadInfo :=
  l.foldr heapInsert []

/-- State of `thread_manager.py`: the module-level globals `thread_heap`
and `chat_user_threads`. -/
structure TMState where
  heap : List ThreadInfo
  map : ThreadMap
  deriving DecidableEq, Repr

/-- Model of `thread_manager.update_thread_access(chat_id, user_id,
thread_id)` at time `now`.  When a record for the key exists with the
same `thread_id`, the code mutates `existing.last_access` in place (the
dict and the heap alias the same object) and re-heapifies; otherwise it
builds a fresh `ThreadInfo`, stores it in the dict and pushes it on the
heap.  The in-place mutation is modelled by rewriting every heap entry
with the same `(chat_id, user_id, thread_id)` identity (heap entries of
reachable states are distinct on that triple) and re-sorting. -/
def update_thread_access (now : Int) (chat user : Int) (tid : String)
    (s : TMState) : TMState :=
  match lookupKey (chat, user) s.map with
  | some ex =>
    if ex.thread_id = tid then
      let ex' : ThreadInfo :=
        { thread_id := ex.thread_id, last_access := now,
          chat_id := ex.chat_id, user_id := ex.user_id }
      { map := setKey (chat, user) ex' s.map,
        heap := heapSort (s.heap.map (fun t =>
          if t.chat_id = chat ∧ t.user_id = user ∧ t.thread_id = tid
          then ex' else t)) }
    else
      let ti : ThreadInfo :=
        { thread_id := tid, last_access := now, chat_id := chat, user_id := user }
      { map := setKey (chat, user) ti s.map, heap := heapInsert ti s.heap }
  | none =>
    let ti : ThreadInfo :=
      { thread_id := tid, last_access := now, chat_id := chat, user_id := user }
    { map := setKey (chat, user) ti s.map, heap := heapInsert ti s.heap }

/-- Model of `thread_manager.get_or_create_thread(chat_id, user_id)` at
time `now`.  `valid` is the outcome of `check_thread_exists` (which
returns `False` on any backend exception), `fresh` the id returned by
`client.beta.threads.create()`.  Returns the thread id handed to the
caller and the updated state. -/
def get_or_create_thread (now : Int) (chat user : Int)
    (valid : String → Bool) (fresh : String) (s : TMState) :
    String × TMState :=
  match lookupKey (chat, user) s.map with
  | none => (fresh, update_thread_access now chat user fresh s)
  | some ti =>
    if valid ti.thread_id then
      (ti.thread_id, update_thread_access now chat user ti.thread_id s)
    else
      (fresh, update_thread_access now chat user fresh s)

/-- One pass of the eviction loop body of
`thread_manager.cleanup_old_threads` (the `while thread_heap:` loop run
at `current_time = now` with `maxIdle` the lifetime bound).  For each
popped expired entry the code always attempts the backend delete of
`oldest_thread.thread_id` (recorded in the returned list; every
exception is caught) and then removes the key from the dict whenever the
key is present (`if key in chat_user_threads: del ...`), with no
comparison of the popped entry against the dict's current record. -/
def cleanup_sweep (now maxIdle : Int) :
    List ThreadInfo → ThreadMap →
    List ThreadInfo × ThreadMap × List String
  | [], m => ([], m, [])
  | oldest :: rest, m =>
    if now - oldest.last_access ≤ maxIdle then
      (oldest :: rest, m, [])
    else
      let m' := eraseKey oldest.key m
      let r := cleanup_sweep now maxIdle rest m'
      (r.1, r.2.1, oldest.thread_id :: r.2.2)

/-- Model of one tick of `cleanup_old_threads` on the whole state. -/
def cleanup_tick (now maxIdle : Int) (s : TMState) :
    TMState × List String :=
  let r := cleanup_sweep now maxIdle s.heap s.map
  ({ heap := r.1, map := r.2.1 }, r.2.2)

/-- Model of `thread_manager.delete_all_threads()`.  The loop iterates a
snapshot of the dict items; for each record the backend delete is
attempted (always recorded in the second component), and only when the
delete does not raise (`deleteFails t.thread_id = false`) does the
following `del chat_user_threads[key]` execute — on an exception the
`except` block logs and the local entry survives.  Afterwards
`thread_heap.clear()` runs unconditionally. -/
def delete_all_threads (deleteFails : String → Bool) (s : TMState) :
    TMState × List String :=
  let m' := s.map.foldl
    (fun (m : ThreadMap) kv =>
      if deleteFails kv.2.thread_id then m else eraseKey kv.1 m)
    s.map
  ({ heap := [], map := m' }, s.map.map (fun kv => kv.2.thread_id))

/-!
Model of the admission pipeline of `src/bot.py`
(`should_bot_respond`).  Message text is carried as a `String`; Python
slicing `text[offset : offset + length]` becomes drop/take on the
character list (both clamp out-of-range indices the same way), and
`str.lower()` becomes `Char.toLower` on each character (they agree on
the ASCII usernames Telegram allows).  Replies sent with
`message.reply_text` are collected in a list.
-/

/-- Model of the result of `application.bot.get_me()` stored in the
global `bot_info` of `src/bot.py`. -/
structure BotInfo where
  id : Int
  username : String
  deriving DecidableEq, Repr

/-- Model of a Telegram `MessageEntity`: its `type` string and the
`offset`/`length` span into the message text. -/
structure Entity where
  etype : String
  offset : Nat
  length : Nat
  deriving DecidableEq, Repr

/-- Model of an incoming Telegram `Message` as `should_bot_respond`
reads it: ids, chat type (`message.chat.type`), text, entity spans and
the author id of the replied-to message when the message is a reply
with a known author (`message.reply_to_message.from_user.id`). -/
structure Msg where
  chat_id : Int
  user_id : Int
  chat_type : String
  text : String
  entities : List Entity
  reply_to_author : Option Int
  deriving DecidableEq, Repr

/-- Static configuration of `src/bot.py` as `should_bot_respond` uses
it: the `BANNED_USERS` and `BANNED_CHATS` dicts (id to reason),
`ALLOWED_CHATS` (`none` models the wildcard `"*"`), and the global
`bot_info` (`none` models the uninitialized state). -/
structure BotConfig where
  banned_users : List (Int × String)
  banned_chats : List (Int × String)
  allowed_chats : Option (List Int)
  bot_info : Option BotInfo
  deriving Repr

/-- Lookup in an id-to-reason dict (`BANNED_USERS` / `BANNED_CHATS`). -/
def lookupBan (k : Int) (m : List (Int × String)) : Option String :=
  dictGet k m

/-- Python slice `text[o : o + n]` on the character list. -/
def pySliceChars (l : List Char) (o n : Nat) : List Char :=
  (l.drop o).take n

/-- Python `str.lower()` on the character list. -/
def lowerChars (l : List Char) : List Char :=
  l.map Char.toLower

/-- Reply sent for a banned user:
`f"⛔️ Вы заблокированы.\n\nПричина: [reason]"`. -/
def userBanReply (reason : String) : String :=
  "⛔️ Вы заблокированы.\n\nПричина: " ++ reason

/-- Reply sent for a banned chat:
`f"⛔️ Этот чат заблокирован.\n\nПричина: [reason]"`. -/
def chatBanReply (reason : String) : String :=
  "⛔️ Этот чат заблокирован.\n\nПричина: " ++ reason

/-- Model of the `is_reply_to_bot` computation of `should_bot_respond`:
the message is a reply whose author id equals `bot_info.id`. -/
def isReplyToBot (bi : BotInfo) (m : Msg) : Bool :=
  m.reply_to_author = some bi.id

/-- Model of the `is_mention` loop of `should_bot_respond`: some entity
has `type == "mention"` and its slice of the text, lowercased, equals
`"@" + bot_info.username.lower()` (string equality is equality of the
character lists, and the data of `f"@..."` is `'@'` consed on). -/
def isMentionOf (bi : BotInfo) (m : Msg) : Bool :=
  m.entities.any (fun e =>
    e.etype = "mention" ∧
    lowerChars (pySliceChars m.text.data e.offset e.length) =
      '@' :: lowerChars bi.username.data)

/-- Model of `bot.should_bot_respond(message, context)` for a message
that carries both ids (the structural checks at the top reject messages
without `from_user` / ids before any of the modelled logic runs).
Returns the boolean result paired with the list of replies sent. -/
def should_bot_respond (cfg : BotConfig) (m : Msg) : Bool × List String :=
  match lookupBan m.user_id cfg.banned_users with
  | some reason => (false, [userBanReply reason])
  | none =>
    if m.chat_type = "private" then
      match lookupBan m.chat_id cfg.banned_chats with
      | some reason => (false, [chatBanReply reason])
      | none => (true, [])
    else
      if (match cfg.allowed_chats with
          | none => false
          | some l => ¬ (m.chat_id ∈ l)) then
        (false, [])
      else
        match cfg.bot_info with
        | none => (false, [])
        | some bi =>
          let addressed := isReplyToBot bi m || isMentionOf bi m
          if addressed then
            match lookupBan m.chat_id cfg.banned_chats with
            | some reason => (false, [chatBanReply reason])
            | none => (true, [])
          else
            (false, [])

/-!
Model of the rate limiter and of the message handler of
`src/handlers.py`.
-/

/-- Per-user rate window, the spec's `RateState`:
`{ count, windowStart }`. -/
structure RateInfo where
  count : Nat
  window_start : Int
  deriving DecidableEq, Repr

/-- Map from user id to rate window. -/
abbrev RateMap := List (Int × RateInfo)

/-- Lookup in the rate map. -/
def lookupRate (k : Int) (m : RateMap) : Option RateInfo :=
  dictGet k m

/-- Store in the rate map (dict update: replace or append). -/
def setRate (k : Int) (ri : RateInfo) (m : RateMap) : RateMap :=
  dictSet k ri m

/-- Modelled from the spec: `check_rate_limit` is imported by
`src/handlers.py` from `access_control.py`, a module of this repository
that is not among the available sources; its behaviour is taken from
spec §4.4: a fixed-window counter keyed by user id — if no window
exists or the current window has expired (`now − windowStart ≥
windowDuration`), start a fresh window with count 1 and allow;
otherwise increment the count and allow iff `count ≤ limit`. -/
def check_rate_limit (now : Int) (limit : Nat) (window : Int)
    (uid : Int) (rs : RateMap) : Bool × RateMap :=
  match lookupRate uid rs with
  | none => (true, setRate uid ⟨1, now⟩ rs)
  | some ri =>
    if now - ri.window_start ≥ window then
      (true, setRate uid ⟨1, now⟩ rs)
    else
      let c := ri.count + 1
      (c ≤ limit, setRate uid ⟨c, ri.window_start⟩ rs)

/-- Reply sent by `handlers.handle_message` when the user is not in the
`USERS` allow-list. -/
def noAccessReply : String := "У вас нет доступа к боту."

/-- Reply sent by `handlers.handle_message` when `check_rate_limit`
rejects (the wait message naming the window length). -/
def rateWaitReply (window : Int) : String :=
  "Слишком много сообщений. Подождите немного (" ++ toString window ++ " сек)."

/-- Reply sent by `handlers.handle_message` when the text exceeds
`MAX_MESSAGE_LENGTH`. -/
def tooLongReply (maxLen : Nat) : String :=
  "Сообщение слишком длинное. Максимум: " ++ toString maxLen ++ " символов."

/-- Outcome of one run of `handlers.handle_message`: the replies it
sent itself, the rate-limiter state, the thread-manager state, and the
thread id passed to the assistant round-trip (`none` when the handler
returned before session resolution). -/
structure HandleOutcome where
  replies : List String
  rates : RateMap
  threads : TMState
  resolved : Option String
  deriving Repr

/-- Model of `handlers.handle_message` on a structurally complete
update (`effective_chat` / `effective_user` / `message` present).  The
stages mirror the source in order: `should_bot_respond` (its boolean
outcome is the parameter `sbr`, since the function lives in the absent
`access_control.py`; the replies that call sends itself are not part of
this handler's own replies), the `USERS` allow-list check (`none`
models `"*"`), `check_rate_limit`, the empty-text early return
(`if not message_text: return`, which catches both a missing and an
empty text), the length check, `send_chat_action` (whose `Forbidden`
failure is the parameter `typingOk = false`, causing a silent return),
then `get_or_create_thread` and the assistant round-trip whose cleaned
reply text is the parameter `response`. -/
def handle_message (users : Option (List String)) (limit : Nat)
    (window : Int) (maxLen : Nat) (now : Int) (sbr : Bool)
    (username : Option String) (chatId uid : Int)
    (text : Option String) (typingOk : Bool) (valid : String → Bool)
    (fresh : String) (response : String) (rates : RateMap)
    (threads : TMState) : HandleOutcome :=
  if ¬ sbr then ⟨[], rates, threads, none⟩
  else if (match users with
           | none => false
           | some l =>
             match username with
             | none => true
             | some un => decide (un ∉ l)) then
    ⟨[noAccessReply], rates, threads, none⟩
  else
    let rl := check_rate_limit now limit window uid rates
    if ¬ rl.1 then ⟨[rateWaitReply window], rl.2, threads, none⟩
    else
      match text with
      | none => ⟨[], rl.2, threads, none⟩
      | some t =>
        if t = "" then ⟨[], rl.2, threads, none⟩
        else if maxLen < t.length then
          ⟨[tooLongReply maxLen], rl.2, threads, none⟩
        else if ¬ typingOk then ⟨[], rl.2, threads, none⟩
        else
          let r := get_or_create_thread now chatId uid valid fresh threads
          ⟨[response], rl.2, r.2, some r.1⟩

/-!
Interleaving model for concurrent executions of
`get_or_create_thread`.  The function is a coroutine: it may suspend at
each `await` of a backend call (`check_thread_exists`, i.e.
`client.beta.threads.messages.list`, and `client.beta.threads.create`);
the code between suspension points runs atomically on the event loop.
A task is therefore in one of four phases:

* `start` — about to run `chat_user_threads.get(key)`;
* `waitCheck ti` — suspended inside `await check_thread_exists(...)`
  for the record `ti` it read;
* `waitCreate` — suspended inside `await client.beta.threads.create()`;
* `done tid` — returned `tid`.

`concStep` runs one ready task for one atomic segment; `concRun` folds
a schedule (a list of task indices).  `created` counts the backend
`createSession` (`threads.create`) calls. -/
inductive TaskPhase where
  | start : TaskPhase
  | waitCheck : ThreadInfo → TaskPhase
  | waitCreate : TaskPhase
  | done : String → TaskPhase
  deriving DecidableEq, Repr

/-- Global state of the interleaving model: the thread-manager state
shared by all tasks, the task phases, the number of `threads.create`
calls made so far, and a counter from which fresh backend ids are
drawn (`client.beta.threads.create()` returns distinct ids). -/
structure ConcState where
  tm : TMState
  tasks : List TaskPhase
  created : Nat
  nextId : Nat
  deriving Repr

/-- The id the backend returns for the `n`-th `threads.create` call. -/
def freshId (n : Nat) : String := "thread-new-" ++ toString n

/-- One atomic segment of task `i`, all tasks resolving the same key
`(chat, user)` at time `now` with `check_thread_exists` outcomes given
by `valid`.  Mirrors `get_or_create_thread` of `thread_manager.py`:
read the dict, then either suspend on the validity check or on the
create; on resuming from a valid check, bump the access time and
return the remembered id; on resuming from a create, record the new id
and return it. -/
def concStep (now : Int) (chat user : Int) (valid : String → Bool)
    (st : ConcState) (i : Nat) : ConcState :=
  match st.tasks.get? i with
  | none => st
  | some phase =>
    match phase with
    | .start =>
      match lookupKey (chat, user) st.tm.map with
      | none => { st with tasks := st.tasks.set i .waitCreate }
      | some ti => { st with tasks := st.tasks.set i (.waitCheck ti) }
    | .waitCheck ti =>
      if valid ti.thread_id then
        { st with
          tm := update_thread_access now chat user ti.thread_id st.tm,
          tasks := st.tasks.set i (.done ti.thread_id) }
      else
        { st with tasks := st.tasks.set i .waitCreate }
    | .waitCreate =>
      let tid := freshId st.nextId
      { tm := update_thread_access now chat user tid st.tm,
        tasks := st.tasks.set i (.done tid),
        created := st.created + 1,
        nextId := st.nextId + 1 }
    | .done _ => st

/-- Run a schedule of atomic segments. -/
def concRun (now : Int) (chat user : Int) (valid : String → Bool)
    (sched : List Nat) (st : ConcState) : ConcState :=
  sched.foldl (concStep now chat user valid) st

/-- Two `get_or_create_thread` tasks for the same key, started on an
empty registry. -/
def twoTasksInit : ConcState :=
  { tm := { heap := [], map := [] },
    tasks := [.start, .start], created := 0, nextId := 0 }

/-!
Auxiliary predicates used to state the claims.
-/

/-- A record is expired at `now` under idle bound `maxIdle` exactly when
the eviction loop would delete it: `now - last_access > maxIdle`
(the code keeps it when `current_time - last_access <= timedelta(...)`). -/
def expiredAt (now maxIdle : Int) (t : ThreadInfo) : Prop :=
  maxIdle < now - t.last_access

instance (now maxIdle : Int) (t : ThreadInfo) :
    Decidable (expiredAt now maxIdle t) := by
  unfold expiredAt; infer_instance

/-- The heap model is ordered by `last_access`, which is the invariant
`heapq` maintains (entries pop in nondecreasing `last_access` order). -/
def heapOrdered (h : List ThreadInfo) : Prop :=
  h.Pairwise (fun a b => a.last_access ≤ b.last_access)

instance (h : List ThreadInfo) : Decidable (heapOrdered h) := by
  unfold heapOrdered; infer_instance

/-- The heap and the dict describe the same records: every heap entry is
the dict's record for its own key, every dict record is a heap entry
stored under its own key, and no two heap entries share a key.  This is
the no-stale-duplicates regime in which the dict and the ordering
structure agree. -/
def consistentState (s : TMState) : Prop :=
  (∀ ti ∈ s.heap, lookupKey ti.key s.map = some ti) ∧
  (∀ kv ∈ s.map, kv.2 ∈ s.heap ∧ kv.2.key = kv.1) ∧
  (s.heap.map ThreadInfo.key).Nodup

instance (s : TMState) : Decidable (consistentState s) := by
  unfold consistentState; infer_instance

/-- The spec's wording of the addressing check: some entity of mention
type, sliced from the text at its offset and length, case-insensitively
equals `"@"` followed by the bot's username, or the message is a reply
whose referenced author id equals the bot's id. -/
def specAddressed (bi : BotInfo) (m : Msg) : Prop :=
  (∃ e ∈ m.entities, e.etype = "mention" ∧
    lowerChars (pySliceChars m.text.data e.offset e.length) =
      lowerChars ('@' :: bi.username.data)) ∨
  m.reply_to_author = some bi.id

/-- Run `n` consecutive `check_rate_limit` calls for `uid`, all at time
`now`, threading the rate map. -/
def rateRepeat (now : Int) (limit : Nat) (window : Int) (uid : Int) :
    Nat → RateMap → RateMap
  | 0, rs => rs
  | n + 1, rs =>
    rateRepeat now limit window uid n
      (check_rate_limit now limit window uid rs).2

/-!
Lemmas about the dictionary model.
-/

theorem dictGet_mem {κ β : Type} [DecidableEq κ] {k : κ} {v : β} :
    ∀ {m : List (κ × β)}, dictGet k m = some v → (k, v) ∈ m := by
  intro m
  induction m with
  | nil => intro h; simp [dictGet] at h
  | cons kv rest ih =>
    intro h
    obtain ⟨k', w⟩ := kv
    by_cases hk : k' = k
    · subst hk
      simp [dictGet] at h
      subst h
      exact List.mem_cons_self _ _
    · simp [dictGet, hk] at h
      exact List.mem_cons_of_mem _ (ih h)

theorem dictGet_cons {κ β : Type} [DecidableEq κ] (k a : κ) (b : β)
    (rest : List (κ × β)) :
    dictGet k ((a, b) :: rest) =
      if a = k then some b else dictGet k rest := rfl

theorem dictErase_cons {κ β : Type} [DecidableEq κ] (k' a : κ) (b : β)
    (rest : List (κ × β)) :
    dictErase k' ((a, b) :: rest) =
      if a = k' then dictErase k' rest
      else (a, b) :: dictErase k' rest := by
  unfold dictErase
  rw [List.filter_cons]
  by_cases ha : a = k'
  · simp [ha]
  · simp [ha]

theorem dictGet_map_replace {κ β : Type} [DecidableEq κ] (k : κ) (v : β) :
    ∀ (m : List (κ × β)),
      dictGet k (m.map (fun kv => if kv.1 = k then (k, v) else kv)) =
        (dictGet k m).map (fun _ => v) := by
  intro m
  induction m with
  | nil => simp [dictGet]
  | cons kv rest ih =>
    obtain ⟨a, b⟩ := kv
    rw [List.map_cons]
    show dictGet k ((if a = k then (k, v) else (a, b)) :: _) = _
    by_cases ha : a = k
    · rw [if_pos ha, dictGet_cons, dictGet_cons, if_pos rfl, if_pos ha]
      rfl
    · rw [if_neg ha, dictGet_cons, dictGet_cons, if_neg ha, if_neg ha]
      exact ih

theorem dictGet_append_of_none {κ β : Type} [DecidableEq κ] {k : κ}
    {m l : List (κ × β)} (h : dictGet k m = none) :
    dictGet k (m ++ l) = dictGet k l := by
  induction m with
  | nil => simp
  | cons kv rest ih =>
    obtain ⟨k', w⟩ := kv
    by_cases hk : k' = k
    · subst hk; simp [dictGet] at h
    · simp [dictGet, hk] at h ⊢
      exact ih h

theorem dictGet_set_self {κ β : Type} [DecidableEq κ] (k : κ) (v : β)
    (m : List (κ × β)) : dictGet k (dictSet k v m) = some v := by
  unfold dictSet
  by_cases h : (dictGet k m).isSome
  · obtain ⟨w, hw⟩ := Option.isSome_iff_exists.mp h
    simp [h, dictGet_map_replace, hw]
  · have hn : dictGet k m = none := Option.not_isSome_iff_eq_none.mp h
    simp [h, dictGet_append_of_none hn, dictGet]

theorem dictGet_map_replace_ne {κ β : Type} [DecidableEq κ] {k k' : κ}
    (v : β) (hne : k' ≠ k) :
    ∀ (m : List (κ × β)),
      dictGet k' (m.map (fun kv => if kv.1 = k then (k, v) else kv)) =
        dictGet k' m := by
  intro m
  induction m with
  | nil => simp
  | cons kv rest ih =>
    obtain ⟨a, b⟩ := kv
    rw [List.map_cons]
    show dictGet k' ((if a = k then (k, v) else (a, b)) :: _) = _
    by_cases ha : a = k
    · subst ha
      rw [if_pos rfl, dictGet_cons, dictGet_cons,
        if_neg (fun h => hne h.symm), if_neg (fun h => hne h.symm)]
      exact ih
    · rw [if_neg ha, dictGet_cons, dictGet_cons]
      by_cases ha' : a = k'
      · rw [if_pos ha', if_pos ha']
      · rw [if_neg ha', if_neg ha']
        exact ih

theorem dictGet_append_single_ne {κ β : Type} [DecidableEq κ] {k k' : κ}
    (v : β) (hne : k' ≠ k) (m : List (κ × β)) :
    dictGet k' (m ++ [(k, v)]) = dictGet k' m := by
  induction m with
  | nil =>
    rw [List.nil_append, dictGet_cons, if_neg (fun h => hne h.symm)]
  | cons kv rest ih =>
    obtain ⟨a, b⟩ := kv
    rw [List.cons_append, dictGet_cons, dictGet_cons]
    by_cases ha : a = k'
    · rw [if_pos ha, if_pos ha]
    · rw [if_neg ha, if_neg ha]
      exact ih

theorem dictGet_set_ne {κ β : Type} [DecidableEq κ] {k k' : κ} (v : β)
    (hne : k' ≠ k) (m : List (κ × β)) :
    dictGet k' (dictSet k v m) = dictGet k' m := by
  unfold dictSet
  by_cases h : (dictGet k m).isSome
  · simp [h, dictGet_map_replace_ne v hne]
  · simp [h, dictGet_append_single_ne v hne]

theorem dictGet_erase {κ β : Type} [DecidableEq κ] (k k' : κ)
    (m : List (κ × β)) :
    dictGet k (dictErase k' m) =
      if k = k' then none else dictGet k m := by
  induction m with
  | nil =>
    show dictGet k [] = _
    by_cases hk : k = k' <;> simp [dictGet, hk]
  | cons kv rest ih =>
    obtain ⟨a, b⟩ := kv
    rw [dictErase_cons]
    by_cases ha : a = k'
    · rw [if_pos ha, ih, dictGet_cons]
      by_cases hk : k = k'
      · rw [if_pos hk, if_pos hk]
      · rw [if_neg hk, if_neg hk, if_neg (fun h : a = k => hk (h ▸ ha))]
    · rw [if_neg ha, dictGet_cons, dictGet_cons]
      by_cases hak : a = k
      · rw [if_pos hak, if_pos hak,
          if_neg (fun h : k = k' => ha (hak.trans h))]
      · rw [if_neg hak, if_neg hak, ih]

/-!
Lemmas about the thread registry.
-/

/-- After `update_thread_access`, the dict holds a record for the key
whose `thread_id` is the given id and whose `last_access` is `now`. -/
theorem lookup_update_self (now chat user : Int) (tid : String)
    (s : TMState) :
    ∃ r, lookupKey (chat, user)
        (update_thread_access now chat user tid s).map = some r ∧
      r.thread_id = tid ∧ r.last_access = now := by
  cases h : lookupKey (chat, user) s.map with
  | none =>
    simp only [update_thread_access, lookupKey] at h ⊢
    rw [h]
    exact ⟨_, dictGet_set_self _ _ _, rfl, rfl⟩
  | some ex =>
    simp only [update_thread_access, lookupKey] at h ⊢
    rw [h]
    dsimp only
    by_cases ht : ex.thread_id = tid
    · rw [if_pos ht]
      exact ⟨_, dictGet_set_self _ _ _, ht, rfl⟩
    · rw [if_neg ht]
      exact ⟨_, dictGet_set_self _ _ _, rfl, rfl⟩

/-- C1: `get_or_create_thread` resolves a key as the spec states.  With
no record, or a record whose id fails the backend validity check, it
returns the freshly created backend id and stores a record with that id
and `lastAccess = now`; with a valid record it returns the remembered id
unchanged and bumps `lastAccess` to `now`; and whenever the current
record's id differs from an old id (as it does right after a recreate)
and the backend mints ids distinct from that old id, the resolved id is
never that old id again. -/
theorem resolve_spec (now chat user : Int) (valid : String → Bool)
    (fresh old : String) (s : TMState) :
    (lookupKey (chat, user) s.map = none →
      (get_or_create_thread now chat user valid fresh s).1 = fresh ∧
      ∃ r, lookupKey (chat, user)
          (get_or_create_thread now chat user valid fresh s).2.map = some r ∧
        r.thread_id = fresh ∧ r.last_access = now) ∧
    (∀ ti, lookupKey (chat, user) s.map = some ti →
      valid ti.thread_id = false →
      (get_or_create_thread now chat user valid fresh s).1 = fresh ∧
      ∃ r, lookupKey (chat, user)
          (get_or_create_thread now chat user valid fresh s).2.map = some r ∧
        r.thread_id = fresh ∧ r.last_access = now) ∧
    (∀ ti, lookupKey (chat, user) s.map = some ti →
      valid ti.thread_id = true →
      (get_or_create_thread now chat user valid fresh s).1 = ti.thread_id ∧
      ∃ r, lookupKey (chat, user)
          (get_or_create_thread now chat user valid fresh s).2.map = some r ∧
        r.thread_id = ti.thread_id ∧ r.last_access = now) ∧
    ((∀ r, lookupKey (chat, user) s.map = some r → r.thread_id ≠ old) →
      fresh ≠ old →
      (get_or_create_thread now chat user valid fresh s).1 ≠ old) := by
  refine ⟨?_, ?_, ?_, ?_⟩
  · intro h
    simp only [get_or_create_thread, h]
    exact ⟨by simp, lookup_update_self now chat user fresh s⟩
  · intro ti h hv
    simp only [get_or_create_thread, h, hv]
    exact ⟨by simp, lookup_update_self now chat user fresh s⟩
  · intro ti h hv
    simp only [get_or_create_thread, h, hv]
    exact ⟨by simp, lookup_update_self now chat user ti.thread_id s⟩
  · intro hold hf
    cases h : lookupKey (chat, user) s.map with
    | none => simp only [get_or_create_thread, h]; exact hf
    | some ti =>
      cases hv : valid ti.thread_id with
      | false => simp only [get_or_create_thread, h, hv]; exact hf
      | true =>
        simp only [get_or_create_thread, h, hv]
        exact hold ti h

/-- Witness for `resolve_spec`: resolving key `(1, 2)` on an empty
registry returns the fresh id `"tF"`, records it with access time `5`,
and does not return the retired id `"tOld"`. -/
theorem resolve_spec_witness :
    lookupKey (1, 2) (TMState.mk [] []).map = none ∧
    (get_or_create_thread 5 1 2 (fun _ => true) "tF" (TMState.mk [] [])).1
      = "tF" ∧
    (∃ r, lookupKey (1, 2)
        (get_or_create_thread 5 1 2 (fun _ => true) "tF"
          (TMState.mk [] [])).2.map = some r ∧
      r.thread_id = "tF" ∧ r.last_access = 5) ∧
    (get_or_create_thread 5 1 2 (fun _ => true) "tF" (TMState.mk [] [])).1
      ≠ "tOld" :=
  ⟨rfl,
   ((resolve_spec 5 1 2 (fun _ => true) "tF" "tOld" (TMState.mk [] [])).1
     rfl).1,
   ((resolve_spec 5 1 2 (fun _ => true) "tF" "tOld" (TMState.mk [] [])).1
     rfl).2,
   (resolve_spec 5 1 2 (fun _ => true) "tF" "tOld" (TMState.mk [] [])).2.2.2
     (fun r h => Option.noConfusion h) (by decide)⟩

/-- C2 fails on the code: the eviction sweep does not re-validate a
popped entry against the dict.  First state: the heap holds a stale
entry `"t1"` for key `(1, 2)` (superseded after a recreate) together
with the live entry `"t2"`, and the dict's current record for `(1, 2)`
is `"t2"`.  Sweeping at `now = 100` with `maxIdle = 50` pops the stale
expired entry, issues a backend delete for `"t1"` and removes the
dict's record — which is the live `"t2"` record — leaving the dict
empty.  Second state: the popped entry's key is absent from the dict
entirely, yet a backend delete for `"t1"` is still issued.  The claim
requires both pops to be side-effect-free no-ops. -/
theorem cleanup_stale_entry_bug :
    (cleanup_tick 100 50
        { heap := [⟨"t1", 0, 1, 2⟩, ⟨"t2", 90, 1, 2⟩],
          map := [((1, 2), ⟨"t2", 90, 1, 2⟩)] } =
      ({ heap := [⟨"t2", 90, 1, 2⟩], map := [] }, ["t1"])) ∧
    lookupKey (1, 2)
      (cleanup_tick 100 50
        { heap := [⟨"t1", 0, 1, 2⟩, ⟨"t2", 90, 1, 2⟩],
          map := [((1, 2), ⟨"t2", 90, 1, 2⟩)] }).1.map = none ∧
    (cleanup_tick 100 50
        { heap := [⟨"t1", 0, 1, 2⟩], map := [] } =
      ({ heap := [], map := [] }, ["t1"])) := by
  refine ⟨by decide, by decide, by decide⟩

/-- C4 fails on the code: in `delete_all_threads` the local
`del chat_user_threads[key]` sits inside the `try` after the backend
delete, so when the backend delete of `"tA"` raises, the `except` block
swallows the error and the local record for `(1, 1)` survives; only the
heap is unconditionally cleared.  Backend deletes are still attempted
for every record (`["tA", "tB"]`). -/
theorem delete_all_leaves_map_on_failure :
    (delete_all_threads (fun t => t = "tA")
        { heap := [⟨"tA", 0, 1, 1⟩, ⟨"tB", 0, 2, 2⟩],
          map := [((1, 1), ⟨"tA", 0, 1, 1⟩),
                  ((2, 2), ⟨"tB", 0, 2, 2⟩)] } =
      ({ heap := [], map := [((1, 1), ⟨"tA", 0, 1, 1⟩)] },
        ["tA", "tB"])) ∧
    (delete_all_threads (fun t => t = "tA")
        { heap := [⟨"tA", 0, 1, 1⟩, ⟨"tB", 0, 2, 2⟩],
          map := [((1, 1), ⟨"tA", 0, 1, 1⟩),
                  ((2, 2), ⟨"tB", 0, 2, 2⟩)] }).1.map ≠ [] := by
  refine ⟨by decide, by decide⟩

/-- C5 as stated is false on the code: `get_or_create_thread` holds no
per-key lock, so in the schedule `[0, 1, 0, 1]` both tasks run their
dict read before either write and the backend `create` is called twice,
not once. -/
theorem concurrent_resolve_double_create :
    (concRun 5 1 2 (fun _ => true) [0, 1, 0, 1] twoTasksInit).created = 2 ∧
    (concRun 5 1 2 (fun _ => true) [0, 1, 0, 1] twoTasksInit).created ≠ 1 := by
  refine ⟨rfl, by decide⟩

/-- C5, amended: `get_or_create_thread` contains no per-key
serialization.  When two resolve calls for the same absent key
interleave at their `await` points (both read the dict before either
writes), each observes no record and each issues its own backend
`create` — two calls, both callers receiving distinct ids, with the
second write overwriting the first in the dict (orphaning the first
session).  Exactly one `create` happens only when the calls do not
interleave, in which case the second caller reuses the first's id. -/
theorem concurrent_resolve_no_serialization :
    ((concRun 5 1 2 (fun _ => true) [0, 1, 0, 1] twoTasksInit).created = 2 ∧
     (concRun 5 1 2 (fun _ => true) [0, 1, 0, 1] twoTasksInit).tasks =
       [.done "thread-new-0", .done "thread-new-1"] ∧
     lookupKey (1, 2)
       (concRun 5 1 2 (fun _ => true) [0, 1, 0, 1] twoTasksInit).tm.map =
       some ⟨"thread-new-1", 5, 1, 2⟩) ∧
    ((concRun 5 1 2 (fun _ => true) [0, 0, 1, 1] twoTasksInit).created = 1 ∧
     (concRun 5 1 2 (fun _ => true) [0, 0, 1, 1] twoTasksInit).tasks =
       [.done "thread-new-0", .done "thread-new-0"]) := by
  refine ⟨⟨rfl, rfl, by decide⟩, rfl, rfl⟩

/-- Cross-validated induction behind C3: on a heap sorted by
`last_access` that agrees with the dict, one eviction pass keeps
exactly the records within the idle budget, backend-deletes exactly the
expired ones, and the dict afterwards answers lookups exactly for the
surviving records. -/
theorem cleanup_sweep_spec (now maxIdle : Int) :
    ∀ (h : List ThreadInfo) (m : ThreadMap),
      heapOrdered h →
      (∀ ti ∈ h, lookupKey ti.key m = some ti) →
      (∀ kv ∈ m, kv.2 ∈ h ∧ kv.2.key = kv.1) →
      (h.map ThreadInfo.key).Nodup →
      (cleanup_sweep now maxIdle h m).1 =
        h.filter (fun t => now - t.last_access ≤ maxIdle) ∧
      (cleanup_sweep now maxIdle h m).2.2 =
        (h.filter (fun t => maxIdle < now - t.last_access)).map
          (fun t => t.thread_id) ∧
      (∀ k ti, lookupKey k (cleanup_sweep now maxIdle h m).2.1 = some ti ↔
        (lookupKey k m = some ti ∧ now - ti.last_access ≤ maxIdle)) := by
  intro h
  induction h with
  | nil =>
    intro m _ _ h2 _
    refine ⟨rfl, rfl, ?_⟩
    intro k ti
    constructor
    · intro hl
      exact absurd (h2 _ (dictGet_mem hl)).1 (List.not_mem_nil _)
    · intro hl
      exact absurd (h2 _ (dictGet_mem hl.1)).1 (List.not_mem_nil _)
  | cons oldest rest ih =>
    intro m hord h1 h2 hnd
    by_cases hexp : now - oldest.last_access ≤ maxIdle
    · have hall : ∀ t ∈ oldest :: rest, now - t.last_access ≤ maxIdle := by
        intro t ht
        rcases List.mem_cons.mp ht with rfl | ht'
        · exact hexp
        · have hle : oldest.last_access ≤ t.last_access :=
            (List.pairwise_cons.mp hord).1 t ht'
          omega
      have hsw : cleanup_sweep now maxIdle (oldest :: rest) m =
          (oldest :: rest, m, []) := by
        simp only [cleanup_sweep, if_pos hexp]
      rw [hsw]
      refine ⟨?_, ?_, ?_⟩
      · symm
        rw [List.filter_eq_self]
        intro a ha
        exact decide_eq_true (hall a ha)
      · have hnil : (oldest :: rest).filter
            (fun t => decide (maxIdle < now - t.last_access)) = [] := by
          rw [List.filter_eq_nil_iff]
          intro a ha
          simpa using not_lt.mpr (hall a ha)
        rw [hnil]
        rfl
      · intro k ti
        constructor
        · intro hl
          refine ⟨hl, ?_⟩
          exact hall ti (h2 _ (dictGet_mem hl)).1
        · exact And.left
    · have hexp' : maxIdle < now - oldest.last_access := not_le.mp hexp
      have hordr : heapOrdered rest := (List.pairwise_cons.mp hord).2
      rw [List.map_cons] at hnd
      have hkey_notin : oldest.key ∉ rest.map ThreadInfo.key :=
        (List.nodup_cons.mp hnd).1
      have hndr : (rest.map ThreadInfo.key).Nodup :=
        (List.nodup_cons.mp hnd).2
      have h1r : ∀ ti ∈ rest,
          lookupKey ti.key (eraseKey oldest.key m) = some ti := by
        intro ti hti
        have hne : ti.key ≠ oldest.key := by
          intro he
          exact hkey_notin (he ▸ List.mem_map_of_mem _ hti)
        show dictGet ti.key (dictErase oldest.key m) = some ti
        rw [dictGet_erase, if_neg hne]
        exact h1 ti (List.mem_cons_of_mem _ hti)
      have h2r : ∀ kv ∈ eraseKey oldest.key m,
          kv.2 ∈ rest ∧ kv.2.key = kv.1 := by
        intro kv hkv
        have hkvm : kv ∈ m := List.mem_of_mem_filter hkv
        have hne : kv.1 ≠ oldest.key := by
          have := (List.mem_filter.mp hkv).2
          simpa using this
        obtain ⟨hmem, hkey⟩ := h2 kv hkvm
        rcases List.mem_cons.mp hmem with he | hr
        · exact absurd (hkey.symm.trans (congrArg ThreadInfo.key he)) hne
        · exact ⟨hr, hkey⟩
      obtain ⟨ihh, ihd, ihm⟩ :=
        ih (eraseKey oldest.key m) hordr h1r h2r hndr
      have hsw : cleanup_sweep now maxIdle (oldest :: rest) m =
          ((cleanup_sweep now maxIdle rest (eraseKey oldest.key m)).1,
           (cleanup_sweep now maxIdle rest (eraseKey oldest.key m)).2.1,
           oldest.thread_id ::
             (cleanup_sweep now maxIdle rest (eraseKey oldest.key m)).2.2) := by
        simp only [cleanup_sweep, if_neg hexp]
      rw [hsw]
      refine ⟨?_, ?_, ?_⟩
      · rw [ihh, List.filter_cons]
        simp [hexp]
      · rw [ihd, List.filter_cons]
        simp [hexp']
      · intro k ti
        rw [ihm k ti]
        constructor
        · rintro ⟨hl, hidle⟩
          have hk : k ≠ oldest.key := by
            intro he
            rw [show lookupKey k (eraseKey oldest.key m) =
                dictGet k (dictErase oldest.key m) from rfl,
              dictGet_erase, if_pos he] at hl
            exact Option.noConfusion hl
          refine ⟨?_, hidle⟩
          rw [show lookupKey k (eraseKey oldest.key m) =
              dictGet k (dictErase oldest.key m) from rfl,
            dictGet_erase, if_neg hk] at hl
          exact hl
        · rintro ⟨hl, hidle⟩
          have hk : k ≠ oldest.key := by
            intro he
            have hold : lookupKey oldest.key m = some oldest :=
              h1 oldest (List.mem_cons_self _ _)
            rw [he, hold] at hl
            injection hl with hv
            rw [← hv] at hidle
            exact absurd hidle (not_le.mpr hexp')
          refine ⟨?_, hidle⟩
          rw [show lookupKey k (eraseKey oldest.key m) =
              dictGet k (dictErase oldest.key m) from rfl,
            dictGet_erase, if_neg hk]
          exact hl

/-- Heap-side induction behind the amended C3: on a heap ordered by
`last_access` (the `heapq` invariant), regardless of the dict contents,
one eviction pass keeps in the heap exactly the entries within the idle
budget and backend-deletes exactly the expired ones, stopping at the
first entry still within budget. -/
theorem cleanup_sweep_heap (now maxIdle : Int) :
    ∀ (h : List ThreadInfo) (m : ThreadMap),
      heapOrdered h →
      (cleanup_sweep now maxIdle h m).1 =
        h.filter (fun t => now - t.last_access ≤ maxIdle) ∧
      (cleanup_sweep now maxIdle h m).2.2 =
        (h.filter (fun t => maxIdle < now - t.last_access)).map
          (fun t => t.thread_id) := by
  intro h
  induction h with
  | nil => intro m _; exact ⟨rfl, rfl⟩
  | cons oldest rest ih =>
    intro m hord
    by_cases hexp : now - oldest.last_access ≤ maxIdle
    · have hall : ∀ t ∈ oldest :: rest, now - t.last_access ≤ maxIdle := by
        intro t ht
        rcases List.mem_cons.mp ht with rfl | ht'
        · exact hexp
        · have hle : oldest.last_access ≤ t.last_access :=
            (List.pairwise_cons.mp hord).1 t ht'
          omega
      have hsw : cleanup_sweep now maxIdle (oldest :: rest) m =
          (oldest :: rest, m, []) := by
        simp only [cleanup_sweep, if_pos hexp]
      rw [hsw]
      constructor
      · symm
        rw [List.filter_eq_self]
        intro a ha
        exact decide_eq_true (hall a ha)
      · have hnil : (oldest :: rest).filter
            (fun t => decide (maxIdle < now - t.last_access)) = [] := by
          rw [List.filter_eq_nil_iff]
          intro a ha
          simpa using not_lt.mpr (hall a ha)
        rw [hnil]
        rfl
    · have hexp' : maxIdle < now - oldest.last_access := not_le.mp hexp
      have hordr : heapOrdered rest := (List.pairwise_cons.mp hord).2
      obtain ⟨ihh, ihd⟩ := ih (eraseKey oldest.key m) hordr
      have hsw : cleanup_sweep now maxIdle (oldest :: rest) m =
          ((cleanup_sweep now maxIdle rest (eraseKey oldest.key m)).1,
           (cleanup_sweep now maxIdle rest (eraseKey oldest.key m)).2.1,
           oldest.thread_id ::
             (cleanup_sweep now maxIdle rest (eraseKey oldest.key m)).2.2) := by
        simp only [cleanup_sweep, if_neg hexp]
      rw [hsw]
      constructor
      · rw [ihh, List.filter_cons]
        simp [hexp]
      · rw [ihd, List.filter_cons]
        simp [hexp']

/-- C3 as stated fails on the code: eviction timing is correct per heap
entry, but on a reachable stale-duplicate state a record within the
idle budget is nonetheless evicted from the authoritative dict.  The
state arises after a recreate: the heap still holds the superseded
entry `"old"` (last access 0) for key `(3, 4)` next to the live entry
`"live"` (last access 95), and the dict's record is `"live"`.  At
`now = 100` with `maxIdle = 50` the record `"live"` has idle time
`5 ≤ 50`, yet after the sweep the dict no longer holds any record for
the key: the within-budget record was evicted. -/
theorem evict_within_budget_record_lost :
    (100 : Int) - 95 ≤ 50 ∧
    lookupKey (3, 4)
      (TMState.mk [⟨"old", 0, 3, 4⟩, ⟨"live", 95, 3, 4⟩]
        [((3, 4), ⟨"live", 95, 3, 4⟩)]).map = some ⟨"live", 95, 3, 4⟩ ∧
    heapOrdered
      (TMState.mk [⟨"old", 0, 3, 4⟩, ⟨"live", 95, 3, 4⟩]
        [((3, 4), ⟨"live", 95, 3, 4⟩)]).heap ∧
    lookupKey (3, 4)
      (cleanup_tick 100 50
        (TMState.mk [⟨"old", 0, 3, 4⟩, ⟨"live", 95, 3, 4⟩]
          [((3, 4), ⟨"live", 95, 3, 4⟩)])).1.map = none := by
  refine ⟨by decide, by decide, by decide, by decide⟩

/-- C3, amended: a sweep at time `now` with idle bound `maxIdle`, run
on a heap ordered by `last_access` (the `heapq` invariant), keeps in
the heap exactly the entries whose idle time is at most `maxIdle` and
issues a backend delete for exactly the entries whose idle time
strictly exceeds it, in oldest-to-newest order, stopping at the first
entry within budget.  The matching statement for the lookup map —
expired records evicted, within-budget records kept — holds only when
the heap carries no stale duplicates (heap and dict agree); on a
stale-duplicate state a within-budget map record can be lost
(`evict_within_budget_record_lost`, the bug recorded under C2). -/
theorem evict_expired_boundary_ordered (now maxIdle : Int) (s : TMState)
    (hord : heapOrdered s.heap) :
    (cleanup_tick now maxIdle s).1.heap =
      s.heap.filter (fun t => now - t.last_access ≤ maxIdle) ∧
    (cleanup_tick now maxIdle s).2 =
      (s.heap.filter (fun t => maxIdle < now - t.last_access)).map
        (fun t => t.thread_id) ∧
    (consistentState s →
      ∀ k ti, lookupKey k (cleanup_tick now maxIdle s).1.map = some ti ↔
        (lookupKey k s.map = some ti ∧ now - ti.last_access ≤ maxIdle)) := by
  obtain ⟨hh, hd⟩ := cleanup_sweep_heap now maxIdle s.heap s.map hord
  refine ⟨hh, hd, ?_⟩
  intro hcons
  obtain ⟨h1, h2, hnd⟩ := hcons
  exact (cleanup_sweep_spec now maxIdle s.heap s.map hord h1 h2 hnd).2.2

/-- Witness for `evict_expired_boundary_ordered`: with records "a"
(idle 100) and "b" (idle 20) and bound 50, the sweep keeps "b",
backend-deletes exactly "a", and — the state being duplicate-free —
the dict still answers for "b". -/
theorem evict_expired_boundary_ordered_witness :
    heapOrdered [⟨"a", 0, 1, 1⟩, ⟨"b", 80, 2, 2⟩] ∧
    consistentState ⟨[⟨"a", 0, 1, 1⟩, ⟨"b", 80, 2, 2⟩],
      [((1, 1), ⟨"a", 0, 1, 1⟩), ((2, 2), ⟨"b", 80, 2, 2⟩)]⟩ ∧
    (cleanup_tick 100 50 ⟨[⟨"a", 0, 1, 1⟩, ⟨"b", 80, 2, 2⟩],
      [((1, 1), ⟨"a", 0, 1, 1⟩), ((2, 2), ⟨"b", 80, 2, 2⟩)]⟩).1.heap =
      [⟨"b", 80, 2, 2⟩] ∧
    (cleanup_tick 100 50 ⟨[⟨"a", 0, 1, 1⟩, ⟨"b", 80, 2, 2⟩],
      [((1, 1), ⟨"a", 0, 1, 1⟩), ((2, 2), ⟨"b", 80, 2, 2⟩)]⟩).2 = ["a"] ∧
    (lookupKey (2, 2)
        (cleanup_tick 100 50 ⟨[⟨"a", 0, 1, 1⟩, ⟨"b", 80, 2, 2⟩],
          [((1, 1), ⟨"a", 0, 1, 1⟩),
           ((2, 2), ⟨"b", 80, 2, 2⟩)]⟩).1.map = some ⟨"b", 80, 2, 2⟩ ↔
      (lookupKey (2, 2)
          (TMState.mk [⟨"a", 0, 1, 1⟩, ⟨"b", 80, 2, 2⟩]
            [((1, 1), ⟨"a", 0, 1, 1⟩),
             ((2, 2), ⟨"b", 80, 2, 2⟩)]).map = some ⟨"b", 80, 2, 2⟩ ∧
        (100 : Int) - 80 ≤ 50)) :=
  ⟨by decide, by decide,
   ((evict_expired_boundary_ordered 100 50 _ (by decide)).1).trans
     (by decide),
   ((evict_expired_boundary_ordered 100 50 _ (by decide)).2.1).trans
     (by decide),
   (evict_expired_boundary_ordered 100 50 _ (by decide)).2.2 (by decide)
     (2, 2) ⟨"b", 80, 2, 2⟩⟩

/-- Lowercasing commutes with prepending the `'@'` sign, which is not a
letter. -/
theorem lowerChars_at_cons (l : List Char) :
    lowerChars ('@' :: l) = '@' :: lowerChars l := by
  simp [lowerChars, show Char.toLower '@' = '@' from by decide]

/-- C6: in a group chat (chat type not private), for a non-banned user
in an allowed chat: an unaddressed message is rejected with zero
replies even when the chat is banned, and an addressed message in a
banned chat draws exactly one reply, carrying the configured reason,
and is rejected. -/
theorem group_addressing_and_ban_gate (cfg : BotConfig) (m : Msg)
    (bi : BotInfo)
    (hbi : cfg.bot_info = some bi)
    (hpriv : m.chat_type ≠ "private")
    (huser : lookupBan m.user_id cfg.banned_users = none)
    (hallow : cfg.allowed_chats = none ∨
      ∃ l, cfg.allowed_chats = some l ∧ m.chat_id ∈ l) :
    ((isReplyToBot bi m || isMentionOf bi m) = false →
      should_bot_respond cfg m = (false, [])) ∧
    ((isReplyToBot bi m || isMentionOf bi m) = true →
      ∀ reason, lookupBan m.chat_id cfg.banned_chats = some reason →
        should_bot_respond cfg m = (false, [chatBanReply reason]) ∧
        ∃ p, (chatBanReply reason).data = p ++ reason.data) := by
  have hstep : should_bot_respond cfg m =
      (if (isReplyToBot bi m || isMentionOf bi m) = true then
        match lookupBan m.chat_id cfg.banned_chats with
        | some reason => (false, [chatBanReply reason])
        | none => (true, [])
      else (false, [])) := by
    simp only [should_bot_respond, huser, hbi]
    rw [if_neg hpriv]
    rcases hallow with hnone | ⟨l, hl, hmem⟩
    · simp [hnone]
    · simp [hl, hmem]
  constructor
  · intro haddr
    rw [hstep, if_neg (by simp [haddr])]
  · intro haddr reason hban
    rw [hstep, if_pos haddr]
    refine ⟨by simp [hban], ?_⟩
    exact ⟨_, String.data_append _ _⟩

/-- Witness for `group_addressing_and_ban_gate`: with chat 5 banned for
"spam" and bot username `mybot`, an unaddressed group message gets no
reply and a mention of `@MyBot` gets exactly the ban reply. -/
theorem group_addressing_and_ban_gate_witness :
    should_bot_respond ⟨[], [(5, "spam")], none, some ⟨99, "mybot"⟩⟩
      ⟨5, 3, "supergroup", "hello", [], none⟩ = (false, []) ∧
    should_bot_respond ⟨[], [(5, "spam")], none, some ⟨99, "mybot"⟩⟩
      ⟨5, 3, "supergroup", "@MyBot hi", [⟨"mention", 0, 6⟩], none⟩ =
      (false, [chatBanReply "spam"]) :=
  ⟨(group_addressing_and_ban_gate
      ⟨[], [(5, "spam")], none, some ⟨99, "mybot"⟩⟩
      ⟨5, 3, "supergroup", "hello", [], none⟩ ⟨99, "mybot"⟩ rfl
      (by decide) (by decide) (Or.inl rfl)).1 (by decide),
   ((group_addressing_and_ban_gate
      ⟨[], [(5, "spam")], none, some ⟨99, "mybot"⟩⟩
      ⟨5, 3, "supergroup", "@MyBot hi", [⟨"mention", 0, 6⟩], none⟩
      ⟨99, "mybot"⟩ rfl (by decide) (by decide)
      (Or.inl rfl)).2 (by decide) "spam" (by decide)).1⟩

/-- C7: the addressing check holds exactly when some mention-type
entity, sliced from the text at its offset and length,
case-insensitively equals `"@"` followed by the bot username, or the
message is a reply whose referenced author is the bot; in particular
entity text `"@MyBot"` matches username `mybot` and `"@other"` does
not. -/
theorem mention_detection_spec :
    (∀ (bi : BotInfo) (m : Msg),
      (isReplyToBot bi m || isMentionOf bi m) = true ↔ specAddressed bi m) ∧
    isMentionOf ⟨99, "mybot"⟩
      ⟨1, 2, "supergroup", "@MyBot hi", [⟨"mention", 0, 6⟩], none⟩ = true ∧
    isMentionOf ⟨99, "mybot"⟩
      ⟨1, 2, "supergroup", "@other hi", [⟨"mention", 0, 6⟩], none⟩ = false := by
  refine ⟨?_, by decide, by decide⟩
  intro bi m
  rw [Bool.or_eq_true]
  unfold specAddressed isReplyToBot isMentionOf
  rw [List.any_eq_true]
  constructor
  · rintro (hr | ⟨e, he, hp⟩)
    · exact Or.inr (of_decide_eq_true hr)
    · obtain ⟨h1, h2⟩ := of_decide_eq_true hp
      refine Or.inl ⟨e, he, h1, ?_⟩
      rw [h2, lowerChars_at_cons]
  · rintro (⟨e, he, h1, h2⟩ | hr)
    · refine Or.inr ⟨e, he, decide_eq_true ⟨h1, ?_⟩⟩
      rw [h2, lowerChars_at_cons]
    · exact Or.inl (decide_eq_true hr)

/-- C8: a private-chat message from a non-banned user whose chat is not
banned is accepted with no reply and with no requirement on mentions or
replies (the message fields for entities and reply are arbitrary); if
the private chat is banned, exactly one reply carrying the stored
reason is sent and the message is rejected. -/
theorem private_chat_admission (cfg : BotConfig) (m : Msg)
    (hpriv : m.chat_type = "private")
    (huser : lookupBan m.user_id cfg.banned_users = none) :
    (lookupBan m.chat_id cfg.banned_chats = none →
      should_bot_respond cfg m = (true, [])) ∧
    (∀ reason, lookupBan m.chat_id cfg.banned_chats = some reason →
      should_bot_respond cfg m = (false, [chatBanReply reason]) ∧
      ∃ p, (chatBanReply reason).data = p ++ reason.data) := by
  constructor
  · intro hban
    simp only [should_bot_respond, huser]
    rw [if_pos hpriv]
    simp [hban]
  · intro reason hban
    refine ⟨?_, ⟨_, String.data_append _ _⟩⟩
    simp only [should_bot_respond, huser]
    rw [if_pos hpriv]
    simp [hban]

/-- Witness for `private_chat_admission`: a private message in chat 7
is accepted silently when no ban is configured, and answered with
exactly the ban reply when chat 7 is banned with reason "closed". -/
theorem private_chat_admission_witness :
    should_bot_respond ⟨[], [], none, none⟩
      ⟨7, 8, "private", "hello", [], none⟩ = (true, []) ∧
    should_bot_respond ⟨[], [(7, "closed")], none, none⟩
      ⟨7, 8, "private", "hello", [], none⟩ =
      (false, [chatBanReply "closed"]) :=
  ⟨(private_chat_admission ⟨[], [], none, none⟩
      ⟨7, 8, "private", "hello", [], none⟩ rfl (by decide)).1 (by decide),
   ((private_chat_admission ⟨[], [(7, "closed")], none, none⟩
      ⟨7, 8, "private", "hello", [], none⟩ rfl (by decide)).2
      "closed" (by decide)).1⟩

/-- Within an unexpired window, each further call increments the stored
count by one and keeps the window start. -/
theorem rateRepeat_window (now : Int) (limit : Nat) (window : Int)
    (uid : Int) (hw : 0 < window) :
    ∀ (n c : Nat),
      rateRepeat now limit window uid n [(uid, ⟨c, now⟩)] =
        [(uid, ⟨c + n, now⟩)] := by
  intro n
  induction n with
  | zero => intro c; simp [rateRepeat]
  | succ k ih =>
    intro c
    rw [show rateRepeat now limit window uid (k + 1) [(uid, ⟨c, now⟩)] =
        rateRepeat now limit window uid k
          (check_rate_limit now limit window uid [(uid, ⟨c, now⟩)]).2
      from rfl]
    have h2 : (check_rate_limit now limit window uid [(uid, ⟨c, now⟩)]).2 =
        [(uid, ⟨c + 1, now⟩)] := by
      have h0 : ¬ (now - now ≥ window) := by omega
      have h0' : ¬ (window ≤ 0) := by omega
      simp [check_rate_limit, lookupRate, dictGet, setRate, dictSet, h0, h0']
    rw [h2, ih (c + 1)]
    rw [show c + 1 + k = c + (k + 1) from by omega]

/-- From an empty rate map, `n + 1` calls at the same time leave the
user with count `n + 1` and window start `now`. -/
theorem rateRepeat_empty (now : Int) (limit : Nat) (window : Int)
    (uid : Int) (hw : 0 < window) (n : Nat) :
    rateRepeat now limit window uid (n + 1) [] = [(uid, ⟨n + 1, now⟩)] := by
  rw [show rateRepeat now limit window uid (n + 1) [] =
      rateRepeat now limit window uid n
        (check_rate_limit now limit window uid []).2 from rfl]
  have h2 : (check_rate_limit now limit window uid []).2 =
      [(uid, ⟨1, now⟩)] := by
    simp [check_rate_limit, lookupRate, dictGet, setRate, dictSet]
  rw [h2, rateRepeat_window now limit window uid hw n 1]
  rw [show 1 + n = n + 1 from by omega]

/-- C9: the rate limiter is a fixed-window counter.  Within one window
the `(n + 1)`-th call is allowed exactly when `n + 1 ≤ limit` and the
stored count after `n + 1` calls is `n + 1`; with limit 10 and window
60 the 10th call is admitted and the 11th rejected; once the window has
elapsed the next call is admitted with the counter reset to 1; and the
handler answers a rejected call with exactly the wait reply, resolving
no session. -/
theorem rate_limit_fixed_window (limit : Nat) (window now : Int)
    (uid : Int) (hw : 0 < window) (hl : 1 ≤ limit) :
    (∀ n : Nat,
      (check_rate_limit now limit window uid
          (rateRepeat now limit window uid n [])).1 =
        decide (n + 1 ≤ limit) ∧
      lookupRate uid (rateRepeat now limit window uid (n + 1) []) =
        some ⟨n + 1, now⟩) ∧
    ((check_rate_limit 0 10 60 7 (rateRepeat 0 10 60 7 9 [])).1 = true ∧
     (check_rate_limit 0 10 60 7 (rateRepeat 0 10 60 7 10 [])).1 = false) ∧
    (check_rate_limit 60 10 60 7 (rateRepeat 0 10 60 7 11 []) =
      (true, [(7, ⟨1, 60⟩)])) ∧
    (∀ (maxLen : Nat) (chatId : Int) (text : Option String)
        (typingOk : Bool) (valid : String → Bool)
        (fresh response : String) (threads : TMState),
      handle_message none 10 60 maxLen 0 true (some "u") chatId 7 text
          typingOk valid fresh response [(7, ⟨10, 0⟩)] threads =
        ⟨[rateWaitReply 60], [(7, ⟨11, 0⟩)], threads, none⟩) := by
  refine ⟨?_, ⟨by decide, by decide⟩, by decide, ?_⟩
  · intro n
    constructor
    · cases n with
      | zero =>
        simp [rateRepeat, check_rate_limit, lookupRate, dictGet, hl]
      | succ k =>
        rw [rateRepeat_empty now limit window uid hw k]
        have h0 : ¬ (now - now ≥ window) := by omega
        have h0' : ¬ (window ≤ 0) := by omega
        simp [check_rate_limit, lookupRate, dictGet, h0, h0']
    · rw [rateRepeat_empty now limit window uid hw n]
      simp [lookupRate, dictGet]
  · intro maxLen chatId text typingOk valid fresh response threads
    have hrl : check_rate_limit 0 10 60 7 [(7, ⟨10, 0⟩)] =
        (false, [(7, ⟨11, 0⟩)]) := by decide
    simp [handle_message, hrl]

/-- Witness for `rate_limit_fixed_window` at limit 10, window 60: the
10th call is admitted and the 11th rejected. -/
theorem rate_limit_fixed_window_witness :
    (0 : Int) < 60 ∧ (1 : Nat) ≤ 10 ∧
    (check_rate_limit 0 10 60 7 (rateRepeat 0 10 60 7 9 [])).1 = true ∧
    (check_rate_limit 0 10 60 7 (rateRepeat 0 10 60 7 10 [])).1 = false :=
  ⟨by decide, by decide,
   ((rate_limit_fixed_window 10 60 0 7 (by decide) (by decide)).2.1).1,
   ((rate_limit_fixed_window 10 60 0 7 (by decide) (by decide)).2.1).2⟩

/-- C10: an admitted message with empty or missing text makes the
handler return right after the rate-limit step: no reply is sent, no
session is resolved, the thread registry is untouched — yet the
sender's rate window has already been consumed by the preceding
`check_rate_limit` call, which always leaves a window with count at
least 1 for the sender. -/
theorem empty_text_silent_after_rate (users : Option (List String))
    (limit : Nat) (window : Int) (maxLen : Nat) (now : Int)
    (username : Option String) (chatId uid : Int) (text : Option String)
    (typingOk : Bool) (valid : String → Bool) (fresh response : String)
    (rates : RateMap) (threads : TMState)
    (husers : users = none ∨
      ∃ l un, users = some l ∧ username = some un ∧ un ∈ l)
    (hrate : (check_rate_limit now limit window uid rates).1 = true)
    (htext : text = none ∨ text = some "") :
    handle_message users limit window maxLen now true username chatId uid
        text typingOk valid fresh response rates threads =
      ⟨[], (check_rate_limit now limit window uid rates).2, threads, none⟩ ∧
    ∃ ri, lookupRate uid (check_rate_limit now limit window uid rates).2 =
      some ri ∧ 1 ≤ ri.count := by
  constructor
  · rcases husers with h | ⟨l, un, hu, hn, hmem⟩
    · subst h
      rcases htext with ht | ht <;> subst ht <;>
        simp [handle_message, hrate]
    · subst hu
      subst hn
      rcases htext with ht | ht <;> subst ht <;>
        simp [handle_message, hrate, hmem]
  · cases h : lookupRate uid rates with
    | none =>
      have h2 : (check_rate_limit now limit window uid rates).2 =
          setRate uid ⟨1, now⟩ rates := by
        simp [check_rate_limit, h]
      rw [h2]
      exact ⟨⟨1, now⟩, dictGet_set_self _ _ _, le_refl 1⟩
    | some ri =>
      by_cases hwin : now - ri.window_start ≥ window
      · have h2 : (check_rate_limit now limit window uid rates).2 =
            setRate uid ⟨1, now⟩ rates := by
          simp [check_rate_limit, h, hwin]
        rw [h2]
        exact ⟨⟨1, now⟩, dictGet_set_self _ _ _, le_refl 1⟩
      · have h2 : (check_rate_limit now limit window uid rates).2 =
            setRate uid ⟨ri.count + 1, ri.window_start⟩ rates := by
          simp [check_rate_limit, h, hwin]
        rw [h2]
        exact ⟨⟨ri.count + 1, ri.window_start⟩, dictGet_set_self _ _ _,
          by show 1 ≤ ri.count + 1; omega⟩

/-- Witness for `empty_text_silent_after_rate`: an admitted message
with missing text, fresh rate state: the handler sends nothing,
resolves nothing, and the rate window for user 7 now has count 1. -/
theorem empty_text_silent_after_rate_witness :
    (check_rate_limit 0 10 60 7 []).1 = true ∧
    handle_message none 10 60 100 0 true none 1 7 none true
        (fun _ => true) "t0" "resp" [] (TMState.mk [] []) =
      ⟨[], (check_rate_limit 0 10 60 7 []).2, TMState.mk [] [], none⟩ ∧
    (∃ ri, lookupRate 7 (check_rate_limit 0 10 60 7 []).2 = some ri ∧
      1 ≤ ri.count) :=
  ⟨by decide,
   (empty_text_silent_after_rate none 10 60 100 0 none 1 7 none true
      (fun _ => true) "t0" "resp" [] (TMState.mk [] []) (Or.inl rfl)
      (by decide) (Or.inl rfl)).1,
   (empty_text_silent_after_rate none 10 60 100 0 none 1 7 none true
      (fun _ => true) "t0" "resp" [] (TMState.mk [] []) (Or.inl rfl)
      (by decide) (Or.inl rfl)).2⟩

end AssistantBot
